import Mathlib

/-! Verification development for the SG-Adapter evaluation repository.

The repository scores generated images against ground-truth scene-graph
metadata.  The definitions below are a shallow embedding of the Python
sources `sg_adapter_eval.py` and `filter_best_images.py`: strings are
`List Char`, Python floats arising from IoU arithmetic are `ℚ`
(every value produced is an exact ratio of small integers), and Python
code that can raise is embedded as `Option`-returning functions.
-/

/-- A scene-graph triple: (subject, predicate, object), all strings. -/
abbrev Triple := List Char × List Char × List Char

/-! Similarity engine: `compute_iou` (sg_adapter_eval.py lines 116-134) -/

/-- Embedding of `compute_iou` for homogeneous inputs (both lists of strings, or both
lists of triples — the shapes occurring in `evaluate_image`).  For such
inputs the `isinstance(list1[0], list)` branch only decides whether
elements are converted to tuples before deduplication, which is the
identity at the set level, so the typed embedding covers both branches.
The dynamic, mixed-shape behaviour of the same Python function is
embedded separately as `compute_iou_dyn` below. -/
def compute_iou {α : Type} [DecidableEq α] (list1 list2 : List α) : ℚ :=
  if list1.isEmpty && list2.isEmpty then 1
  else if list1.isEmpty || list2.isEmpty then 0
  else
    let set1 := list1.toFinset
    let set2 := list2.toFinset
    let intersection := (set1 ∩ set2).card
    let union := (set1 ∪ set2).card
    if 0 < union then (intersection : ℚ) / (union : ℚ) else 0

/-- Set-level IoU with the vacuous-agreement convention, stated on
`Finset`s; used to express what `compute_iou` computes after
deduplication. -/
def finsetIoU {α : Type} [DecidableEq α] (A B : Finset α) : ℚ :=
  if A = ∅ ∧ B = ∅ then 1
  else if A = ∅ ∨ B = ∅ then 0
  else ((A ∩ B).card : ℚ) / ((A ∪ B).card : ℚ)

/-! Dynamic behaviour of `compute_iou` (sg_adapter_eval.py lines 122-134)

The Python function is dynamically typed: the branch on
`isinstance(list1[0], list)` inspects only the first element of the first
argument.  `PyVal` models the runtime value shapes that reach
`compute_iou` in this program: strings, lists of strings (the triples),
and the tuples produced by `tuple(item)`.  `tuple` of a string is the
tuple of its one-character strings; `set(...)` raises `TypeError` on an
unhashable (list) element, modelled as `none`. -/
inductive PyVal where
  | vstr (s : List Char)
  | vlist (l : List (List Char))
  | vtuple (l : List (List Char))
deriving DecidableEq

/-- Python `tuple(item)` on the shapes above. -/
def pyTuple : PyVal → PyVal
  | .vstr s => .vtuple (s.map (fun c => [c]))
  | .vlist l => .vtuple l
  | .vtuple l => .vtuple l

/-- Python hashability: lists are unhashable, strings and tuples of
strings are hashable. -/
def isHashable : PyVal → Bool
  | .vlist _ => false
  | _ => true

/-- Python `set(l)`: fails (raises `TypeError`) when any element is
unhashable, otherwise deduplicates. -/
def pySet (l : List PyVal) : Option (Finset PyVal) :=
  if l.all isHashable then some l.toFinset else none

/-- The branch condition `isinstance(list1[0], list)` applied to
`list1` (false on the empty list, where Python would not reach it). -/
def usesTupleConv : List PyVal → Bool
  | PyVal.vlist _ :: _ => true
  | _ => false

/-- Embedding of `compute_iou` at the dynamic (value) level, with Python exceptions
as `none`. -/
def compute_iou_dyn (list1 list2 : List PyVal) : Option ℚ :=
  if list1.isEmpty && list2.isEmpty then some 1
  else if list1.isEmpty || list2.isEmpty then some 0
  else
    let p := if usesTupleConv list1 then
               (pySet (list1.map pyTuple), pySet (list2.map pyTuple))
             else (pySet list1, pySet list2)
    match p.1, p.2 with
    | some s1, some s2 =>
      if 0 < (s1 ∪ s2).card then some (((s1 ∩ s2).card : ℚ) / ((s1 ∪ s2).card : ℚ))
      else some 0
    | _, _ => none

/-- Python `isinstance(v, str)`. -/
def isStr : PyVal → Bool
  | .vstr _ => true
  | _ => false

/-! Metadata loader (sg_adapter_eval.py lines 27-70)

A line of the JSONL file is either blank (skipped by `if line.strip()`),
not parseable as a record (`json.loads` or a field access raises), or a
record carrying the four fields used by the loader.  Relation indices are
Python integers (`int(rel[0])`, `int(rel[2])`), embedded as `ℤ`. -/
inductive MetaLine where
  | blank
  | invalid
  | record (file_name : List Char) (caption : List Char)
      (objects : List (List Char)) (relations : List (ℤ × List Char × ℤ))
deriving DecidableEq

/-- One output entry of the loader (the dict built at lines 56-62). -/
structure MetaEntry where
  file_name : List Char
  caption : List Char
  scene_graph : List Triple
  objects : List (List Char)
  relations : List (ℤ × List Char × ℤ)
deriving DecidableEq

/-- Python sequence indexing `l[i]`: non-negative indices from the
front, negative indices from the back, `IndexError` (here `none`)
otherwise. -/
def pyIndex {α : Type} (l : List α) (i : ℤ) : Option α :=
  if 0 ≤ i then l.get? i.toNat
  else if 0 ≤ (l.length : ℤ) + i then l.get? ((l.length : ℤ) + i).toNat
  else none

/-- Option-valued map that fails as soon as one element fails, the way a
Python loop propagates the first exception. -/
def optionMapList {α β : Type} (f : α → Option β) : List α → Option (List β)
  | [] => some []
  | a :: l =>
    match f a with
    | none => none
    | some b =>
      match optionMapList f l with
      | none => none
      | some bs => some (b :: bs)

/-- Resolution of one index-encoded relation into a named triple
(lines 45-54): `objects[subj_idx]`, the predicate, `objects[obj_idx]`. -/
def resolve_relation (objects : List (List Char)) (rel : ℤ × List Char × ℤ) :
    Option Triple :=
  match pyIndex objects rel.1, pyIndex objects rel.2.2 with
  | some subj, some obj => some (subj, rel.2.1, obj)
  | _, _ => none

/-- The `scene_graph` list built by the loop at lines 44-54. -/
def build_scene_graph (objects : List (List Char))
    (rels : List (ℤ × List Char × ℤ)) : Option (List Triple) :=
  optionMapList (resolve_relation objects) rels

/-- Embedding of `load_metadata` (lines 27-70): skip blank lines, fail on the first
bad line, otherwise emit one entry per non-blank line in order.  The
vocabulary accumulation (lines 67-68) has no effect on the output list
and is omitted. -/
def load_metadata : List MetaLine → Option (List MetaEntry)
  | [] => some []
  | MetaLine.blank :: rest => load_metadata rest
  | MetaLine.invalid :: _ => none
  | MetaLine.record fn cap objs rels :: rest =>
    match build_scene_graph objs rels with
    | none => none
    | some sg =>
      match load_metadata rest with
      | none => none
      | some entries => some (⟨fn, cap, sg, objs, rels⟩ :: entries)

/-- Whether a line survives `if line.strip()`. -/
def nonblank : MetaLine → Bool
  | MetaLine.blank => false
  | _ => true

/-- The entry a single non-blank line loads to (`none` on failure). -/
def line_entry : MetaLine → Option MetaEntry
  | MetaLine.blank => none
  | MetaLine.invalid => none
  | MetaLine.record fn cap objs rels =>
    match build_scene_graph objs rels with
    | none => none
    | some sg => some ⟨fn, cap, sg, objs, rels⟩

/-! Scene identity resolution

`sg_adapter_eval.py` lines 197-214 use `os.path.splitext` then
`split('_')[0]` then `isdigit`/`int`; `filter_best_images.py` lines
12-18 use `Path(...).stem` then `split('_')[0]` and keep the segment as
a string key. -/

/-- Index of the last `'.'` in a string, if any. -/
def rfindDotIdx (s : List Char) : Option Nat :=
  match s.reverse.findIdx? (fun c => decide (c = '.')) with
  | none => none
  | some j => some (s.length - 1 - j)

/-- Python `os.path.splitext(s)[0]` for a bare file name: cut at the last dot
unless every character before it is itself a dot. -/
def splitextRoot (s : List Char) : List Char :=
  match rfindDotIdx s with
  | none => s
  | some i => if (s.take i).any (fun c => decide (c ≠ '.')) then s.take i else s

/-- Python `pathlib.Path(s).stem` for a bare file name: drop the suffix after
the last dot when that dot is neither leading nor trailing. -/
def pyStem (s : List Char) : List Char :=
  match rfindDotIdx s with
  | none => s
  | some i => if 0 < i ∧ i < s.length - 1 then s.take i else s

/-- Python `s.split('_')[0]`: the segment before the first underscore. -/
def first_segment (s : List Char) : List Char :=
  s.takeWhile (fun c => decide (c ≠ '_'))

/-- The left segment examined by `evaluate_method` (line 207). -/
def eval_first_part (base_name : List Char) : List Char :=
  first_segment (splitextRoot base_name)

/-- Python `str.isdigit()` restricted to the decimal digits: true iff the
string is non-empty and every character is a digit. -/
def pyIsDigit (s : List Char) : Bool :=
  !s.isEmpty && s.all Char.isDigit

/-- Python `int(s)` on an all-digit string. -/
def digitsToNat (s : List Char) : Nat :=
  s.foldl (fun n c => 10 * n + (c.toNat - 48)) 0

/-- Lines 204-211: the parsed scene index of a file name, `none` when
the first segment is not all digits. -/
def parse_scene_index (base_name : List Char) : Option Nat :=
  if pyIsDigit (eval_first_part base_name) then
    some (digitsToNat (eval_first_part base_name))
  else none

/-- Line 214: the parsed index combined with the range check against the
number of metadata records; `none` means the image is unresolvable. -/
def resolve_scene_index (base_name : List Char) (numRecords : Nat) : Option Nat :=
  match parse_scene_index base_name with
  | some i => if i < numRecords then some i else none
  | none => none

/-- Embedding of `extract_scene_index` (filter_best_images.py lines 12-18): the scene
key of an image name, kept as a string. -/
def extract_scene_index (image_name : List Char) : List Char :=
  first_segment (pyStem image_name)

/-! Oracle and per-image evaluation (sg_adapter_eval.py lines 72-160)

The Gemini call is external I/O; what the code does with its outcome is
modelled at the parse-outcome level: the oracle raises (`err`), returns
text that is not valid JSON (`notJson`), or returns a JSON object whose
possession of the `scene_graph` and `entities` keys is recorded by the
two flags. -/
inductive OracleResponse where
  | err
  | notJson
  | json (hasSceneGraph : Bool) (hasEntities : Bool)
      (scene_graph : List Triple) (entities : List (List Char))
deriving DecidableEq

/-- The validated structure returned by `extract_scene_graph_from_image`. -/
structure Prediction where
  scene_graph : List Triple
  entities : List (List Char)
deriving DecidableEq

/-- Embedding of `extract_scene_graph_from_image` (lines 72-114): any failure —
exception, invalid JSON, or a missing required field — is caught by the
`except` handler and becomes the empty prediction. -/
def extract_scene_graph_from_image (resp : OracleResponse) : Prediction :=
  match resp with
  | OracleResponse.json true true sg ents => ⟨sg, ents⟩
  | _ => ⟨[], []⟩

/-- Whether the oracle outcome takes the failure path of
`extract_scene_graph_from_image`. -/
def oracleFailed : OracleResponse → Bool
  | OracleResponse.json true true _ _ => false
  | _ => true

/-- The dict returned by `evaluate_image` (lines 154-160). -/
structure EvalMetrics where
  sg_iou : ℚ
  entity_iou : ℚ
  relation_iou : ℚ
  predicted_sg : List Triple
  predicted_entities : List (List Char)
deriving DecidableEq

/-- Line 143: `list(set([sg[0] for ...] + [sg[2] for ...]))`.  Python's
set-to-list order is unspecified; `dedup` is one concretization, and
every use feeds `compute_iou`, which depends only on the underlying
set. -/
def gtEntities (gt : List Triple) : List (List Char) :=
  ((gt.map fun t => t.1) ++ (gt.map fun t => t.2.2)).dedup

/-- Embedding of `evaluate_image` (lines 136-160), with the oracle call replaced by
its outcome. -/
def evaluate_image (resp : OracleResponse) (ground_truth_sg : List Triple) :
    EvalMetrics :=
  let predicted := extract_scene_graph_from_image resp
  let gt_relations := ground_truth_sg.map fun t => t.2.1
  let predicted_relations := predicted.scene_graph.map fun t => t.2.1
  ⟨compute_iou ground_truth_sg predicted.scene_graph,
   compute_iou (gtEntities ground_truth_sg) predicted.entities,
   compute_iou gt_relations predicted_relations,
   predicted.scene_graph, predicted.entities⟩

/-- One element of `per_image_results` (lines 229-235; the
`ground_truth_sg` echo is recoverable from the metadata and omitted). -/
structure ScoreRecord where
  image : List Char
  scene_index : Nat
  caption : List Char
  sg_iou : ℚ
  entity_iou : ℚ
  relation_iou : ℚ
  predicted_sg : List Triple
  predicted_entities : List (List Char)
deriving DecidableEq

/-- The record appended at lines 229-235. -/
def make_score_record (img : List Char) (idx : Nat) (entry : MetaEntry)
    (em : EvalMetrics) : ScoreRecord :=
  ⟨img, idx, entry.caption, em.sg_iou, em.entity_iou, em.relation_iou,
   em.predicted_sg, em.predicted_entities⟩

/-- The image loop of `evaluate_method` (lines 197-244): images are
taken in the given (sorted) order; an unresolvable or out-of-range name
is skipped and counted, a resolvable one is scored.  The oracle is a
function from the image name to its response.  Returns the results list
and the skipped count. -/
def evaluate_records (oracle : List Char → OracleResponse)
    (meta : List MetaEntry) : List (List Char) → List ScoreRecord × Nat
  | [] => ([], 0)
  | img :: rest =>
    let tail := evaluate_records oracle meta rest
    match parse_scene_index img with
    | some idx =>
      match meta[idx]? with
      | some entry =>
        (make_score_record img idx entry
          (evaluate_image (oracle img) entry.scene_graph) :: tail.1, tail.2)
      | none => (tail.1, tail.2 + 1)
    | none => (tail.1, tail.2 + 1)

/-- The `average_metrics` dict of `evaluate_method` (lines 248-255). -/
structure AvgMetrics where
  sg_iou : ℚ
  entity_iou : ℚ
  relation_iou : ℚ
  n_images : Nat
deriving DecidableEq

/-- Lines 248-255: totals divided by the record count, zero-guarded. -/
def average_metrics (results : List ScoreRecord) : AvgMetrics :=
  let n := results.length
  ⟨if 0 < n then (results.map (fun r => r.sg_iou)).sum / (n : ℚ) else 0,
   if 0 < n then (results.map (fun r => r.entity_iou)).sum / (n : ℚ) else 0,
   if 0 < n then (results.map (fun r => r.relation_iou)).sum / (n : ℚ) else 0,
   n⟩

/-- Embedding of `evaluate_method` (lines 162-267) restricted to its outputs: the
averages, the per-image results, and the skipped count. -/
def evaluate_method (oracle : List Char → OracleResponse)
    (meta : List MetaEntry) (imgs : List (List Char)) :
    AvgMetrics × List ScoreRecord × Nat :=
  let er := evaluate_records oracle meta imgs
  (average_metrics er.1, er.1, er.2)

/-- Arithmetic mean of a list of rationals (spec-side notion). -/
def meanQ (l : List ℚ) : ℚ := l.sum / (l.length : ℚ)

/-! Best-per-scene filtering (filter_best_images.py lines 21-109) -/

/-- The metric chosen by the `--metric` flag. -/
inductive Metric where
  | sg_iou
  | entity_iou
  | relation_iou
deriving DecidableEq

/-- Python `x[metric]` for a score record. -/
def getMetric : Metric → ScoreRecord → ℚ
  | Metric.sg_iou, r => r.sg_iou
  | Metric.entity_iou, r => r.entity_iou
  | Metric.relation_iou, r => r.relation_iou

/-- The grouping key: `extract_scene_index(result['image'])` (line 39). -/
def sceneKey (r : ScoreRecord) : List Char :=
  extract_scene_index r.image

/-- The group a key maps to in the `defaultdict` (lines 37-40): the
records with that key, in input order. -/
def groupOf (results : List ScoreRecord) (k : List Char) : List ScoreRecord :=
  results.filter (fun r => decide (sceneKey r = k))

/-- Embedding of `sorted(scenes.keys())` (line 51): the distinct keys in Python's
string order (lexicographic by code point). -/
def sceneKeys (results : List ScoreRecord) : List (List Char) :=
  ((results.map sceneKey).dedup).insertionSort (fun a b => a ≤ b)

/-- Python `max(iterable, key=...)` on `b :: l`: the first element of
maximal key, by left fold replacing only on strictly greater. -/
def pyMax (m : Metric) (b : ScoreRecord) (l : List ScoreRecord) : ScoreRecord :=
  l.foldl (fun best x => if getMetric m best < getMetric m x then x else best) b

/-- Embedding of `max(scene_images, key=...)` (line 55); `none` on an empty group,
which the grouping never produces. -/
def bestOfGroup (m : Metric) : List ScoreRecord → Option ScoreRecord
  | [] => none
  | h :: t => some (pyMax m h t)

/-- The `best_results` list (lines 49-56): one best record per sorted
scene key. -/
def filter_best_records (m : Metric) (results : List ScoreRecord) :
    List ScoreRecord :=
  (sceneKeys results).filterMap (fun k => bestOfGroup m (groupOf results k))

/-- Lines 70-76: the recomputed averages.  The division is unguarded in
the source, so an empty best list raises `ZeroDivisionError`, embedded
as `none`. -/
def filter_average_metrics (best_results : List ScoreRecord) : Option AvgMetrics :=
  if best_results.length = 0 then none
  else some
    ⟨(best_results.map (fun r => r.sg_iou)).sum / (best_results.length : ℚ),
     (best_results.map (fun r => r.entity_iou)).sum / (best_results.length : ℚ),
     (best_results.map (fun r => r.relation_iou)).sum / (best_results.length : ℚ),
     best_results.length⟩

/-- Embedding of `filter_best_per_scene` (lines 21-109) restricted to its outputs:
the reduced record list and the recomputed averages. -/
def filter_best_per_scene (m : Metric) (per_image_results : List ScoreRecord) :
    Option (List ScoreRecord × AvgMetrics) :=
  let best := filter_best_records m per_image_results
  match filter_average_metrics best with
  | some avg => some (best, avg)
  | none => none

/-- The single metadata line of the spec's load scenario. -/
def sampleLine : MetaLine :=
  MetaLine.record "a".toList "c".toList ["cat".toList, "mat".toList]
    [((0 : ℤ), "on".toList, (1 : ℤ))]

/-- The entry the scenario line loads to. -/
def sampleEntry : MetaEntry :=
  ⟨"a".toList, "c".toList, [("cat".toList, "on".toList, "mat".toList)],
   ["cat".toList, "mat".toList], [((0 : ℤ), "on".toList, (1 : ℤ))]⟩

/-- Spec-side formulation of first-encountered-wins maximality: `r`
occurs in `g`, everything strictly before that occurrence has a smaller
metric, and nothing in `g` has a larger one. -/
def isFirstMax (m : Metric) (g : List ScoreRecord) (r : ScoreRecord) : Prop :=
  ∃ pre post, g = pre ++ r :: post ∧
    (∀ x ∈ pre, getMetric m x < getMetric m r) ∧
    ∀ x ∈ g, getMetric m x ≤ getMetric m r

/-- A concrete score record used by witnesses. -/
def sampleRecord : ScoreRecord :=
  ⟨"000.png".toList, 0, "c".toList, 1/2, 1/3, 1/4, [], []⟩

/-! Theorems -/

theorem compute_iou_eq_finsetIoU {α : Type} [DecidableEq α] (l1 l2 : List α) :
    compute_iou l1 l2 = finsetIoU l1.toFinset l2.toFinset := by
  unfold compute_iou finsetIoU
  rcases l1 with _ | ⟨a, l1⟩ <;> rcases l2 with _ | ⟨b, l2⟩
  · simp
  · have hb : b ∈ (b :: l2).toFinset := by simp
    have h2 : ¬(b :: l2).toFinset = ∅ := by
      intro h; rw [h] at hb; simp at hb
    simp [List.isEmpty, h2]
  · have ha : a ∈ (a :: l1).toFinset := by simp
    have h1 : ¬(a :: l1).toFinset = ∅ := by
      intro h; rw [h] at ha; simp at ha
    simp [List.isEmpty, h1]
  · have ha : a ∈ (a :: l1).toFinset := by simp
    have h1 : ¬(a :: l1).toFinset = ∅ := by
      intro h; rw [h] at ha; simp at ha
    have hb : b ∈ (b :: l2).toFinset := by simp
    have h2 : ¬(b :: l2).toFinset = ∅ := by
      intro h; rw [h] at hb; simp at hb
    have hpos : 0 < ((a :: l1).toFinset ∪ (b :: l2).toFinset).card := by
      apply Finset.card_pos.mpr
      exact ⟨a, Finset.mem_union_left _ ha⟩
    simp [List.isEmpty, h1, h2, hpos]

theorem finsetIoU_mem_unit {α : Type} [DecidableEq α] (A B : Finset α) :
    0 ≤ finsetIoU A B ∧ finsetIoU A B ≤ 1 := by
  unfold finsetIoU
  split_ifs with h1 h2
  · norm_num
  · norm_num
  · constructor
    · apply div_nonneg <;> positivity
    · rw [div_le_one]
      · exact_mod_cast Nat.cast_le.mpr (Finset.card_le_card Finset.inter_subset_union)
      · have hA : A ≠ ∅ := fun h => h2 (Or.inl h)
        have : (A ∪ B).Nonempty := by
          rcases Finset.nonempty_iff_ne_empty.mpr hA with ⟨x, hx⟩
          exact ⟨x, Finset.mem_union_left _ hx⟩
        exact_mod_cast Nat.cast_pos.mpr (Finset.card_pos.mpr this)

theorem finsetIoU_self {α : Type} [DecidableEq α] (A : Finset α) :
    finsetIoU A A = 1 := by
  unfold finsetIoU
  by_cases h : A = ∅
  · simp [h]
  · have hpos : 0 < A.card := Finset.card_pos.mpr (Finset.nonempty_iff_ne_empty.mpr h)
    rw [if_neg (fun hc => h hc.1), if_neg (fun hc => hc.elim h h),
      Finset.inter_self, Finset.union_self]
    exact div_self (Nat.cast_ne_zero.mpr hpos.ne')

theorem toFinset_ne_empty_of_ne_nil {α : Type} [DecidableEq α] {l : List α}
    (h : l ≠ []) : l.toFinset ≠ ∅ := by
  rcases l with _ | ⟨x, l⟩
  · exact absurd rfl h
  · intro he
    have hx : x ∈ (x :: l).toFinset := by simp
    rw [he] at hx
    simp at hx

/-- Claim C1: for every pair of input sequences `a` and `b`, `compute_iou`
returns `1` when both are empty, `0` when exactly one is empty, and
otherwise the ratio of the cardinalities of the intersection and the union
of the two deduplicated sets (elements, in particular triples, compared by
full structural equality); the result is always in `[0, 1]`. -/
theorem claim_C1 {α : Type} [DecidableEq α] (a b : List α) :
    (a = [] → b = [] → compute_iou a b = 1) ∧
    (a = [] → b ≠ [] → compute_iou a b = 0) ∧
    (a ≠ [] → b = [] → compute_iou a b = 0) ∧
    (a ≠ [] → b ≠ [] →
      compute_iou a b =
        ((a.toFinset ∩ b.toFinset).card : ℚ) / ((a.toFinset ∪ b.toFinset).card : ℚ)) ∧
    0 ≤ compute_iou a b ∧ compute_iou a b ≤ 1 := by
  refine ⟨?_, ?_, ?_, ?_, ?_⟩
  · rintro rfl rfl; rfl
  · rintro rfl hb
    rw [compute_iou_eq_finsetIoU]
    unfold finsetIoU
    have h2 := toFinset_ne_empty_of_ne_nil hb
    simp [h2]
  · rintro ha rfl
    rw [compute_iou_eq_finsetIoU]
    unfold finsetIoU
    have h1 := toFinset_ne_empty_of_ne_nil ha
    simp [h1]
  · intro ha hb
    rw [compute_iou_eq_finsetIoU]
    unfold finsetIoU
    have h1 := toFinset_ne_empty_of_ne_nil ha
    have h2 := toFinset_ne_empty_of_ne_nil hb
    simp [h1, h2]
  · rw [compute_iou_eq_finsetIoU]
    exact finsetIoU_mem_unit _ _

/-- Witness for C1 at concrete triple-valued inputs. -/
theorem claim_C1_witness :
    ([("cat".toList, "on".toList, "mat".toList)] : List Triple) ≠ [] ∧
    ([("cat".toList, "on".toList, "mat".toList),
      ("dog".toList, "under".toList, "mat".toList),
      ("dog".toList, "under".toList, "mat".toList)] : List Triple) ≠ [] ∧
      compute_iou [(("cat".toList, "on".toList, "mat".toList) : Triple)]
          [("cat".toList, "on".toList, "mat".toList),
           ("dog".toList, "under".toList, "mat".toList),
           ("dog".toList, "under".toList, "mat".toList)] =
        (([(("cat".toList, "on".toList, "mat".toList) : Triple)].toFinset ∩
            [("cat".toList, "on".toList, "mat".toList),
             ("dog".toList, "under".toList, "mat".toList),
             ("dog".toList, "under".toList, "mat".toList)].toFinset).card : ℚ) /
          (([(("cat".toList, "on".toList, "mat".toList) : Triple)].toFinset ∪
            [("cat".toList, "on".toList, "mat".toList),
             ("dog".toList, "under".toList, "mat".toList),
             ("dog".toList, "under".toList, "mat".toList)].toFinset).card : ℚ) := by
  refine ⟨by decide, by decide, ?_⟩
  exact (claim_C1 [("cat".toList, "on".toList, "mat".toList)]
    [("cat".toList, "on".toList, "mat".toList),
     ("dog".toList, "under".toList, "mat".toList),
     ("dog".toList, "under".toList, "mat".toList)]).2.2.2.1
      (by decide) (by decide)

theorem pyTuple_hashable (v : PyVal) : isHashable (pyTuple v) = true := by
  cases v <;> rfl

theorem all_hashable_map (l : List PyVal) : (l.map pyTuple).all isHashable = true := by
  rw [List.all_eq_true]
  intro x hx
  rcases List.mem_map.mp hx with ⟨y, _, rfl⟩
  exact pyTuple_hashable y

theorem compute_iou_dyn_tuple_branch (l1 l2 : List PyVal) (h1 : l1 ≠ [])
    (h2 : l2 ≠ []) (hconv : usesTupleConv l1 = true) :
    compute_iou_dyn l1 l2 =
      some (finsetIoU (l1.map pyTuple).toFinset (l2.map pyTuple).toFinset) := by
  rcases l1 with _ | ⟨v, rest⟩
  · exact absurd rfl h1
  rcases l2 with _ | ⟨w, rest2⟩
  · exact absurd rfl h2
  obtain ⟨tl, rfl⟩ : ∃ tl, v = PyVal.vlist tl := by
    rcases v with s | tl | tl
    · simp [usesTupleConv] at hconv
    · exact ⟨tl, rfl⟩
    · simp [usesTupleConv] at hconv
  have hset1 : pySet ((PyVal.vlist tl :: rest).map pyTuple) =
      some ((PyVal.vlist tl :: rest).map pyTuple).toFinset := by
    unfold pySet
    rw [all_hashable_map, if_pos rfl]
  have hset2 : pySet ((w :: rest2).map pyTuple) =
      some ((w :: rest2).map pyTuple).toFinset := by
    unfold pySet
    rw [all_hashable_map, if_pos rfl]
  have hne1 : ((PyVal.vlist tl :: rest).map pyTuple).toFinset ≠ ∅ :=
    toFinset_ne_empty_of_ne_nil (by simp)
  have hne2 : ((w :: rest2).map pyTuple).toFinset ≠ ∅ :=
    toFinset_ne_empty_of_ne_nil (by simp)
  have hpos : 0 < (((PyVal.vlist tl :: rest).map pyTuple).toFinset ∪
      ((w :: rest2).map pyTuple).toFinset).card := by
    apply Finset.card_pos.mpr
    rcases Finset.nonempty_iff_ne_empty.mpr hne1 with ⟨x, hx⟩
    exact ⟨x, Finset.mem_union_left _ hx⟩
  have key : compute_iou_dyn (PyVal.vlist tl :: rest) (w :: rest2) =
      if 0 < (((PyVal.vlist tl :: rest).map pyTuple).toFinset ∪
          ((w :: rest2).map pyTuple).toFinset).card then
        some (((((PyVal.vlist tl :: rest).map pyTuple).toFinset ∩
            ((w :: rest2).map pyTuple).toFinset).card : ℚ) /
          ((((PyVal.vlist tl :: rest).map pyTuple).toFinset ∪
            ((w :: rest2).map pyTuple).toFinset).card : ℚ))
      else some 0 := by
    unfold compute_iou_dyn
    rw [hset1, hset2]
    exact rfl
  rw [key, if_pos hpos]
  unfold finsetIoU
  rw [if_neg (fun h => hne1 h.1), if_neg (fun h => h.elim hne1 hne2)]

theorem compute_iou_dyn_unhashable (l1 l2 : List PyVal) (h1 : l1 ≠ [])
    (h2 : l2 ≠ []) (hall : l1.all isStr = true) (t : List (List Char))
    (ht : PyVal.vlist t ∈ l2) : compute_iou_dyn l1 l2 = none := by
  rcases l1 with _ | ⟨v, rest⟩
  · exact absurd rfl h1
  rcases l2 with _ | ⟨w, rest2⟩
  · exact absurd rfl h2
  have hv : isStr v = true := List.all_eq_true.mp hall v (by simp)
  obtain ⟨s, rfl⟩ : ∃ s, v = PyVal.vstr s := by
    rcases v with s | tl | tl
    · exact ⟨s, rfl⟩
    · simp [isStr] at hv
    · simp [isStr] at hv
  have hset2 : pySet (w :: rest2) = none := by
    unfold pySet
    have hnall : (w :: rest2).all isHashable = false := by
      rw [Bool.eq_false_iff]
      intro h
      have := List.all_eq_true.mp h (PyVal.vlist t) ht
      simp [isHashable] at this
    rw [hnall]
    simp
  rcases hps : pySet (PyVal.vstr s :: rest) with _ | s1 <;>
    (unfold compute_iou_dyn; rw [hset2, hps]; exact rfl)

/-- Claim C10: the function chooses between tuple conversion and direct
set conversion based solely on whether the first element of its first
argument is a list.  On non-empty mixed-shape inputs it either fails on
an unhashable element (first argument all strings, second containing a
list) or silently compares a string's characters against triples (first
element of the first argument a list): well-defined results are
guaranteed only when both inputs share the same element shape.  In
particular the triple `["c","a","t"]` scores full agreement (`1`)
against the unrelated plain string `"cat"`. -/
theorem claim_C10 (l1 l2 : List PyVal) :
    (l1 ≠ [] → l2 ≠ [] → l1.all isStr = true → (∃ t, PyVal.vlist t ∈ l2) →
      compute_iou_dyn l1 l2 = none) ∧
    (l1 ≠ [] → l2 ≠ [] → usesTupleConv l1 = true →
      compute_iou_dyn l1 l2 =
        some (finsetIoU (l1.map pyTuple).toFinset (l2.map pyTuple).toFinset)) ∧
    (∀ s, pyTuple (PyVal.vstr s) = PyVal.vtuple (s.map (fun c => [c]))) ∧
    compute_iou_dyn [PyVal.vlist ["c".toList, "a".toList, "t".toList]]
      [PyVal.vstr "cat".toList] = some 1 := by
  refine ⟨?_, ?_, fun s => rfl, ?_⟩
  · rintro h1 h2 hall ⟨t, ht⟩
    exact compute_iou_dyn_unhashable l1 l2 h1 h2 hall t ht
  · intro h1 h2 hconv
    exact compute_iou_dyn_tuple_branch l1 l2 h1 h2 hconv
  · rw [compute_iou_dyn_tuple_branch [PyVal.vlist ["c".toList, "a".toList, "t".toList]]
      [PyVal.vstr "cat".toList] (by decide) (by decide) rfl]
    have hAB : ((([PyVal.vlist ["c".toList, "a".toList, "t".toList]] : List PyVal).map
          pyTuple).toFinset : Finset PyVal) =
        (([PyVal.vstr "cat".toList] : List PyVal).map pyTuple).toFinset := by decide
    rw [hAB, finsetIoU_self]

/-- Witness for C10: a string-shaped first argument with a list element
in the second argument raises (none), and a list-shaped first argument
against a plain string silently succeeds via character tuples. -/
theorem claim_C10_witness :
    compute_iou_dyn [PyVal.vstr "a".toList] [PyVal.vlist ["x".toList]] = none ∧
      compute_iou_dyn [PyVal.vlist ["a".toList]] [PyVal.vstr "xy".toList] =
        some (finsetIoU ([PyVal.vlist ["a".toList]].map pyTuple).toFinset
          (([PyVal.vstr "xy".toList] : List PyVal).map pyTuple).toFinset) := by
  constructor
  · exact (claim_C10 [PyVal.vstr "a".toList] [PyVal.vlist ["x".toList]]).1
      (by decide) (by decide) (by decide) ⟨["x".toList], by decide⟩
  · exact (claim_C10 [PyVal.vlist ["a".toList]] [PyVal.vstr "xy".toList]).2.1
      (by decide) (by decide) (by decide)

theorem optionMapList_eq_none {α β : Type} (f : α → Option β) (l : List α)
    (x : α) (hx : x ∈ l) (hf : f x = none) : optionMapList f l = none := by
  induction l with
  | nil => simp at hx
  | cons a l ih =>
    rcases List.mem_cons.mp hx with rfl | hx2
    · unfold optionMapList
      rw [hf]
    · unfold optionMapList
      rcases hfa : f a with _ | b
      · rfl
      · rw [ih hx2]

theorem build_scene_graph_eq_none (objs : List (List Char))
    (rels : List (ℤ × List Char × ℤ)) (rel : ℤ × List Char × ℤ)
    (hrel : rel ∈ rels)
    (hbad : pyIndex objs rel.1 = none ∨ pyIndex objs rel.2.2 = none) :
    build_scene_graph objs rels = none := by
  apply optionMapList_eq_none _ _ rel hrel
  unfold resolve_relation
  rcases hbad with h | h
  · rw [h]
  · rw [h]
    rcases pyIndex objs rel.1 with _ | s <;> rfl

/-- Claim C3: for every metadata line whose relations contain a subject
or object index that is not a valid index into the line's objects
sequence (Python indexing: valid means in `[-len, len)`), the loader
fails — `load_metadata` returns `none` for the whole input, never a
silently resolved triple. -/
theorem claim_C3 (lines : List MetaLine) (fn cap : List Char)
    (objs : List (List Char)) (rels : List (ℤ × List Char × ℤ))
    (rel : ℤ × List Char × ℤ)
    (hline : MetaLine.record fn cap objs rels ∈ lines)
    (hrel : rel ∈ rels)
    (hbad : pyIndex objs rel.1 = none ∨ pyIndex objs rel.2.2 = none) :
    load_metadata lines = none := by
  induction lines with
  | nil => simp at hline
  | cons a rest ih =>
    rcases List.mem_cons.mp hline with rfl | hmem
    · unfold load_metadata
      rw [build_scene_graph_eq_none objs rels rel hrel hbad]
    · rcases a with _ | _ | ⟨fn2, cap2, objs2, rels2⟩
      · unfold load_metadata
        exact ih hmem
      · rfl
      · unfold load_metadata
        rcases build_scene_graph objs2 rels2 with _ | sg
        · rfl
        · rw [ih hmem]

/-- Witness for C3: a single-line file whose relation refers to object
index 5 in a 1-element objects list fails to load. -/
theorem claim_C3_witness :
    (MetaLine.record "a".toList "c".toList ["cat".toList]
        [((5 : ℤ), "on".toList, (0 : ℤ))] ∈
      [MetaLine.record "a".toList "c".toList ["cat".toList]
        [((5 : ℤ), "on".toList, (0 : ℤ))]]) ∧
    load_metadata [MetaLine.record "a".toList "c".toList ["cat".toList]
        [((5 : ℤ), "on".toList, (0 : ℤ))]] = none := by
  refine ⟨by decide, ?_⟩
  exact claim_C3 _ "a".toList "c".toList ["cat".toList]
    [((5 : ℤ), "on".toList, (0 : ℤ))] ((5 : ℤ), "on".toList, (0 : ℤ))
    (by decide) (by decide) (Or.inl (by decide))

theorem optionMapList_cons {α β : Type} (f : α → Option β) (a : α) (l : List α) :
    optionMapList f (a :: l) =
      match f a with
      | none => none
      | some b =>
        match optionMapList f l with
        | none => none
        | some bs => some (b :: bs) := rfl

theorem load_metadata_eq_mapList (lines : List MetaLine) :
    load_metadata lines = optionMapList line_entry (lines.filter nonblank) := by
  induction lines with
  | nil => rfl
  | cons a rest ih =>
    rcases a with _ | _ | ⟨fn, cap, objs, rels⟩
    · have hf : (MetaLine.blank :: rest).filter nonblank = rest.filter nonblank := by
        simp [List.filter_cons, nonblank]
      unfold load_metadata
      rw [hf, ih]
    · have hf : (MetaLine.invalid :: rest).filter nonblank =
          MetaLine.invalid :: rest.filter nonblank := by
        simp [List.filter_cons, nonblank]
      rw [hf]
      rfl
    · have hf : (MetaLine.record fn cap objs rels :: rest).filter nonblank =
          MetaLine.record fn cap objs rels :: rest.filter nonblank := by
        simp [List.filter_cons, nonblank]
      have hle : line_entry (MetaLine.record fn cap objs rels) =
          (match build_scene_graph objs rels with
           | none => none
           | some sg => some (⟨fn, cap, sg, objs, rels⟩ : MetaEntry)) := rfl
      unfold load_metadata
      rw [hf, optionMapList_cons, hle, ih]
      rcases build_scene_graph objs rels with _ | sg
      · rfl
      · rcases optionMapList line_entry (rest.filter nonblank) with _ | es <;> rfl

theorem optionMapList_some {α β : Type} (f : α → Option β) :
    ∀ (l : List α) (out : List β), optionMapList f l = some out →
      out.length = l.length ∧
      ∀ i (h1 : i < l.length) (h2 : i < out.length),
        f (l.get ⟨i, h1⟩) = some (out.get ⟨i, h2⟩) := by
  intro l
  induction l with
  | nil =>
    intro out h
    simp [optionMapList] at h
    subst h
    exact ⟨rfl, fun i h1 _ => absurd h1 (Nat.not_lt_zero i)⟩
  | cons a l ih =>
    intro out h
    unfold optionMapList at h
    rcases hfa : f a with _ | b
    · rw [hfa] at h
      simp at h
    · rw [hfa] at h
      rcases hml : optionMapList f l with _ | bs
      · rw [hml] at h
        simp at h
      · rw [hml] at h
        have hout : out = b :: bs := by
          injection h with h2
          exact h2.symm
        subst hout
        obtain ⟨hlen, hpt⟩ := ih bs hml
        refine ⟨by simp [hlen], ?_⟩
        intro i h1 h2
        cases i with
        | zero => simpa using hfa
        | succ j =>
          have h1j : j < l.length := Nat.lt_of_succ_lt_succ h1
          have h2j : j < bs.length := Nat.lt_of_succ_lt_succ h2
          simpa using hpt j h1j h2j

/-- Claim C8: for every sequence of input lines, the loader produces one
record per non-empty line in line order (the 0-based position in the
output being the implicit scene id), each record built by `line_entry`,
which resolves every relation triple into named
(subject, predicate, object) form; in particular the line
`{"file_name":"a","caption":"c","objects":["cat","mat"],"relations":[[0,"on",1]]}`
loads to the single entry with `scene_graph = [("cat","on","mat")]` at
position (scene id) 0. -/
theorem claim_C8 :
    (∀ (lines : List MetaLine) (out : List MetaEntry),
      load_metadata lines = some out →
        out.length = (lines.filter nonblank).length ∧
        ∀ i (h1 : i < (lines.filter nonblank).length) (h2 : i < out.length),
          line_entry ((lines.filter nonblank).get ⟨i, h1⟩) =
            some (out.get ⟨i, h2⟩)) ∧
    load_metadata [sampleLine] = some [sampleEntry] := by
  constructor
  · intro lines out h
    rw [load_metadata_eq_mapList] at h
    exact optionMapList_some line_entry _ out h
  · decide

/-- Witness for C8, applying it to a two-line input (one blank line,
one record line). -/
theorem claim_C8_witness :
    ([sampleEntry] : List MetaEntry).length =
      ([MetaLine.blank, sampleLine].filter nonblank).length := by
  exact (claim_C8.1 [MetaLine.blank, sampleLine] [sampleEntry] (by decide)).1

theorem resolve_scene_index_none (img : List Char) (n : Nat)
    (hp : parse_scene_index img = none) : resolve_scene_index img n = none := by
  unfold resolve_scene_index
  rw [hp]

theorem resolve_scene_index_out (img : List Char) (n idx : Nat)
    (hp : parse_scene_index img = some idx) (hidx : ¬idx < n) :
    resolve_scene_index img n = none := by
  unfold resolve_scene_index
  rw [hp]
  exact if_neg hidx

theorem resolve_scene_index_in (img : List Char) (n idx : Nat)
    (hp : parse_scene_index img = some idx) (hidx : idx < n) :
    resolve_scene_index img n = some idx := by
  unfold resolve_scene_index
  rw [hp]
  exact if_pos hidx

theorem evaluate_records_counts (oracle : List Char → OracleResponse)
    (meta : List MetaEntry) (imgs : List (List Char)) :
    (evaluate_records oracle meta imgs).2 =
      (imgs.filter (fun s => (resolve_scene_index s meta.length).isNone)).length ∧
    (evaluate_records oracle meta imgs).1.map (fun r => r.image) =
      imgs.filter (fun s => (resolve_scene_index s meta.length).isSome) := by
  induction imgs with
  | nil => exact ⟨rfl, rfl⟩
  | cons img rest ih =>
    obtain ⟨ihc, ihm⟩ := ih
    rcases hp : parse_scene_index img with _ | idx
    · have hr := resolve_scene_index_none img meta.length hp
      constructor
      · simp [evaluate_records, hp, List.filter_cons, hr, ihc]
      · simp [evaluate_records, hp, List.filter_cons, hr, ihm]
    · rcases hg : meta[idx]? with _ | entry
      · have hidx : ¬idx < meta.length := by
          intro hlt
          rw [List.getElem?_eq_getElem hlt] at hg
          simp at hg
        have hr := resolve_scene_index_out img meta.length idx hp hidx
        constructor
        · simp [evaluate_records, hp, hg, List.filter_cons, hr, ihc]
        · simp [evaluate_records, hp, hg, List.filter_cons, hr, ihm]
      · have hidx : idx < meta.length := by
          by_contra hlt
          rw [List.getElem?_eq_none (Nat.le_of_not_lt hlt)] at hg
          simp at hg
        have hr := resolve_scene_index_in img meta.length idx hp hidx
        constructor
        · simp [evaluate_records, hp, hg, List.filter_cons, hr, ihc]
        · simp [evaluate_records, hp, hg, List.filter_cons, hr, ihm,
            make_score_record]

/-- Claim C4: for every image file name, the scene id is derived by
stripping the extension, splitting the stem on the first underscore and
taking the left segment; it parses iff that segment is all decimal
digits (value given by `digitsToNat`); a resolved id outside
`[0, numRecords)` is treated as unresolvable; unresolvable images are
skipped and counted rather than scored; `"000_002.png"` resolves to
scene id 0 and `"foo.png"` is unresolvable. -/
theorem claim_C4 (base_name : List Char) (n : Nat) :
    (∀ i, resolve_scene_index base_name n = some i →
      i < n ∧ pyIsDigit (eval_first_part base_name) = true ∧
        i = digitsToNat (eval_first_part base_name)) ∧
    (pyIsDigit (eval_first_part base_name) = false →
      parse_scene_index base_name = none) ∧
    (∀ i, parse_scene_index base_name = some i → n ≤ i →
      resolve_scene_index base_name n = none) ∧
    (∀ (oracle : List Char → OracleResponse) (meta : List MetaEntry)
        (imgs : List (List Char)), meta.length = n →
      (evaluate_records oracle meta imgs).2 =
        (imgs.filter (fun s => (resolve_scene_index s n).isNone)).length ∧
      (evaluate_records oracle meta imgs).1.map (fun r => r.image) =
        imgs.filter (fun s => (resolve_scene_index s n).isSome)) ∧
    (0 < n → resolve_scene_index "000_002.png".toList n = some 0) ∧
    resolve_scene_index "foo.png".toList n = none := by
  refine ⟨?_, ?_, ?_, ?_, ?_, ?_⟩
  · intro i hi
    rcases hp : parse_scene_index base_name with _ | j
    · rw [resolve_scene_index_none base_name n hp] at hi
      simp at hi
    · by_cases hj : j < n
      · rw [resolve_scene_index_in base_name n j hp hj] at hi
        injection hi with hij
        subst hij
        unfold parse_scene_index at hp
        by_cases hd : pyIsDigit (eval_first_part base_name) = true
        · rw [if_pos hd] at hp
          injection hp with hp2
          exact ⟨hj, hd, hp2.symm⟩
        · rw [if_neg hd] at hp
          simp at hp
      · rw [resolve_scene_index_out base_name n j hp hj] at hi
        simp at hi
  · intro hd
    unfold parse_scene_index
    rw [hd]
    simp
  · intro i hp hn
    exact resolve_scene_index_out base_name n i hp (Nat.not_lt_of_le hn)
  · intro oracle meta imgs hlen
    subst hlen
    exact evaluate_records_counts oracle meta imgs
  · intro hn
    exact resolve_scene_index_in "000_002.png".toList n 0 (by decide) hn
  · rcases Nat.lt_or_ge 0 n with h | h
    · exact resolve_scene_index_none "foo.png".toList n (by decide)
    · exact resolve_scene_index_none "foo.png".toList n (by decide)

/-- Witness for C4: the scenario names with three metadata records. -/
theorem claim_C4_witness :
    resolve_scene_index "000_002.png".toList 3 = some 0 ∧
      resolve_scene_index "foo.png".toList 3 = none := by
  exact ⟨(claim_C4 "000_002.png".toList 3).2.2.2.2.1 (by decide),
    (claim_C4 "foo.png".toList 3).2.2.2.2.2⟩

theorem pyMax_spec (m : Metric) : ∀ (l : List ScoreRecord) (b : ScoreRecord),
    ∃ pre post, b :: l = pre ++ pyMax m b l :: post ∧
      (∀ x ∈ pre, getMetric m x < getMetric m (pyMax m b l)) ∧
      ∀ x ∈ b :: l, getMetric m x ≤ getMetric m (pyMax m b l) := by
  intro l
  induction l with
  | nil =>
    intro b
    refine ⟨[], [], rfl, by simp, ?_⟩
    intro x hx
    rw [List.mem_singleton] at hx
    subst hx
    exact le_refl _
  | cons y l ih =>
    intro b
    have hstep : pyMax m b (y :: l) =
        pyMax m (if getMetric m b < getMetric m y then y else b) l := rfl
    by_cases hc : getMetric m b < getMetric m y
    · rw [hstep, if_pos hc]
      obtain ⟨pre, post, heq, hpre, hall⟩ := ih y
      have hyM : getMetric m y ≤ getMetric m (pyMax m y l) :=
        hall y (List.mem_cons_self y l)
      refine ⟨b :: pre, post, ?_, ?_, ?_⟩
      · rw [List.cons_append, ← heq]
      · intro x hx
        rcases List.mem_cons.mp hx with rfl | hx2
        · exact lt_of_lt_of_le hc hyM
        · exact hpre x hx2
      · intro x hx
        rcases List.mem_cons.mp hx with rfl | hx2
        · exact le_of_lt (lt_of_lt_of_le hc hyM)
        · exact hall x hx2
    · rw [hstep, if_neg hc]
      obtain ⟨pre, post, heq, hpre, hall⟩ := ih b
      rcases pre with _ | ⟨p0, pre2⟩
      · have hpair : b = pyMax m b l ∧ l = post := by
          have h2 := heq
          rw [List.nil_append, List.cons.injEq] at h2
          exact h2
        have hM : pyMax m b l = b := hpair.1.symm
        refine ⟨[], y :: l, ?_, ?_, ?_⟩
        · rw [hM]
          rfl
        · intro x hx
          simp at hx
        · intro x hx
          rw [hM]
          rcases List.mem_cons.mp hx with rfl | hx2
          · exact le_refl _
          · rcases List.mem_cons.mp hx2 with rfl | hx3
            · exact le_of_not_lt hc
            · have := hall x (List.mem_cons_of_mem b hx3)
              rw [hM] at this
              exact this
      · have hpair : b = p0 ∧ l = pre2 ++ pyMax m b l :: post := by
          have h2 := heq
          rw [List.cons_append, List.cons.injEq] at h2
          exact h2
        have hb : b = p0 := hpair.1
        have hl : l = pre2 ++ pyMax m b l :: post := hpair.2
        have hbM : getMetric m b < getMetric m (pyMax m b l) := by
          have := hpre p0 (List.mem_cons_self p0 pre2)
          rw [← hb] at this
          exact this
        refine ⟨b :: y :: pre2, post, ?_, ?_, ?_⟩
        · rw [List.cons_append, List.cons_append, ← hl]
        · intro x hx
          rcases List.mem_cons.mp hx with rfl | hx2
          · exact hbM
          · rcases List.mem_cons.mp hx2 with rfl | hx3
            · exact lt_of_le_of_lt (le_of_not_lt hc) hbM
            · exact hpre x (List.mem_cons_of_mem p0 hx3)
        · intro x hx
          rcases List.mem_cons.mp hx with rfl | hx2
          · exact hall x (List.mem_cons_self x l)
          · rcases List.mem_cons.mp hx2 with rfl | hx3
            · exact le_trans (le_of_not_lt hc) (hall b (List.mem_cons_self b l))
            · exact hall x (List.mem_cons_of_mem b hx3)

theorem filter_best_records_def (m : Metric) (rs : List ScoreRecord) :
    filter_best_records m rs =
      (sceneKeys rs).filterMap (fun k => bestOfGroup m (groupOf rs k)) := rfl

theorem mem_sceneKeys (rs : List ScoreRecord) (k : List Char) :
    k ∈ sceneKeys rs ↔ k ∈ rs.map sceneKey := by
  unfold sceneKeys
  rw [(List.perm_insertionSort _ _).mem_iff, List.mem_dedup]

theorem sceneKeys_nodup (rs : List ScoreRecord) : (sceneKeys rs).Nodup := by
  unfold sceneKeys
  exact ((List.perm_insertionSort _ _).nodup_iff).mpr (List.nodup_dedup _)

theorem sceneKeys_sorted (rs : List ScoreRecord) :
    List.Sorted (fun a b => a ≤ b) (sceneKeys rs) :=
  List.sorted_insertionSort _ _

theorem sceneKey_of_mem_group (rs : List ScoreRecord) (k : List Char)
    (r : ScoreRecord) (hr : r ∈ groupOf rs k) : sceneKey r = k := by
  unfold groupOf at hr
  rw [List.mem_filter] at hr
  simpa using hr.2

theorem groupOf_ne_nil (rs : List ScoreRecord) (k : List Char)
    (hk : k ∈ sceneKeys rs) : groupOf rs k ≠ [] := by
  rw [mem_sceneKeys] at hk
  rcases List.mem_map.mp hk with ⟨r, hr, rfl⟩
  intro h
  have hmem : r ∈ groupOf rs (sceneKey r) := by
    unfold groupOf
    rw [List.mem_filter]
    exact ⟨hr, by simp⟩
  rw [h] at hmem
  simp at hmem

theorem bestOfGroup_some (m : Metric) (g : List ScoreRecord) (hg : g ≠ []) :
    ∃ r, bestOfGroup m g = some r := by
  rcases g with _ | ⟨h0, t⟩
  · exact absurd rfl hg
  · exact ⟨pyMax m h0 t, rfl⟩

theorem bestOfGroup_isFirstMax (m : Metric) (g : List ScoreRecord)
    (r : ScoreRecord) (h : bestOfGroup m g = some r) : isFirstMax m g r := by
  rcases g with _ | ⟨h0, t⟩
  · simp [bestOfGroup] at h
  · unfold bestOfGroup at h
    injection h with h1
    subst h1
    exact pyMax_spec m t h0

theorem isFirstMax_mem (m : Metric) (g : List ScoreRecord) (r : ScoreRecord)
    (h : isFirstMax m g r) : r ∈ g := by
  obtain ⟨pre, post, heq, _, _⟩ := h
  rw [heq]
  exact List.mem_append_right _ (List.mem_cons_self _ _)

theorem filterMap_best_map_key (m : Metric) (rs : List ScoreRecord) :
    ∀ (keys : List (List Char)), (∀ k ∈ keys, k ∈ sceneKeys rs) →
      ((keys.filterMap (fun k => bestOfGroup m (groupOf rs k))).map sceneKey) = keys := by
  intro keys
  induction keys with
  | nil => intro _; rfl
  | cons k keys ih =>
    intro hmem
    have hk := hmem k (List.mem_cons_self k keys)
    obtain ⟨r, hr⟩ := bestOfGroup_some m _ (groupOf_ne_nil rs k hk)
    simp only [List.filterMap_cons, hr]
    rw [List.map_cons, ih (fun k2 hk2 => hmem k2 (List.mem_cons_of_mem k hk2))]
    congr 1
    exact sceneKey_of_mem_group rs k r
      (isFirstMax_mem m _ r (bestOfGroup_isFirstMax m _ r hr))

theorem filter_best_map_key (m : Metric) (rs : List ScoreRecord) :
    (filter_best_records m rs).map sceneKey = sceneKeys rs := by
  rw [filter_best_records_def]
  exact filterMap_best_map_key m rs (sceneKeys rs) (fun _ h => h)

/-- Claim C2: for every input list of ScoreRecords,
`filter_best_records` (the selection part of `filter_best_per_scene`)
groups records by resolved scene id and returns exactly one record per
distinct scene id present in the input — each returned record being the
first-encountered record of maximal chosen metric within its group — so
it never increases the number of groups: the output length equals the
number of distinct scene ids of the input. -/
theorem claim_C2 (m : Metric) (rs : List ScoreRecord) :
    ((filter_best_records m rs).map sceneKey).Nodup ∧
    (∀ k, k ∈ (filter_best_records m rs).map sceneKey ↔ k ∈ rs.map sceneKey) ∧
    (filter_best_records m rs).length = ((rs.map sceneKey).dedup).length ∧
    ∀ r ∈ filter_best_records m rs, isFirstMax m (groupOf rs (sceneKey r)) r := by
  have hmap := filter_best_map_key m rs
  refine ⟨?_, ?_, ?_, ?_⟩
  · rw [hmap]
    exact sceneKeys_nodup rs
  · intro k
    rw [hmap]
    exact mem_sceneKeys rs k
  · have h1 : (filter_best_records m rs).length =
        ((filter_best_records m rs).map sceneKey).length :=
      (List.length_map _ _).symm
    rw [h1, hmap]
    unfold sceneKeys
    exact (List.perm_insertionSort _ _).length_eq
  · intro r hr
    rw [filter_best_records_def] at hr
    rcases List.mem_filterMap.mp hr with ⟨k, hk, hbest⟩
    have hkey : sceneKey r = k :=
      sceneKey_of_mem_group rs k r
        (isFirstMax_mem m _ r (bestOfGroup_isFirstMax m _ r hbest))
    rw [hkey]
    exact bestOfGroup_isFirstMax m _ r hbest

theorem filter_singleton_of_nodup :
    ∀ (keys : List (List Char)) (F : List Char → Option ScoreRecord),
      keys.Nodup →
      (∀ k2 r2, k2 ∈ keys → F k2 = some r2 → sceneKey r2 = k2) →
      ∀ k r, k ∈ keys → F k = some r →
        (keys.filterMap F).filter (fun x => decide (sceneKey x = k)) = [r] := by
  intro keys
  induction keys with
  | nil =>
    intro F _ _ k r hk
    simp at hk
  | cons k0 keys ih =>
    intro F hnd hkey k r hk hr
    rcases List.mem_cons.mp hk with rfl | hk2
    · have hkr : sceneKey r = k := hkey k r (List.mem_cons_self _ _) hr
      simp only [List.filterMap_cons, hr]
      rw [List.filter_cons, if_pos (by simp [hkr])]
      have hrest : (List.filterMap F keys).filter
          (fun x => decide (sceneKey x = k)) = [] := by
        rw [List.filter_eq_nil_iff]
        intro x hx
        rcases List.mem_filterMap.mp hx with ⟨k2, hk2, hF2⟩
        have hx2 : sceneKey x = k2 := hkey k2 x (List.mem_cons_of_mem _ hk2) hF2
        have hne : k2 ≠ k := fun hc => (List.nodup_cons.mp hnd).1 (hc ▸ hk2)
        simp [hx2, hne]
      rw [hrest]
    · rcases hF0 : F k0 with _ | r0
      · simp only [List.filterMap_cons, hF0]
        exact ih F (List.Nodup.of_cons hnd)
          (fun k2 r2 h2 => hkey k2 r2 (List.mem_cons_of_mem _ h2)) k r hk2 hr
      · have hr0 : sceneKey r0 = k0 := hkey k0 r0 (List.mem_cons_self _ _) hF0
        have hne : ¬sceneKey r0 = k := by
          rw [hr0]
          intro hc
          exact (List.nodup_cons.mp hnd).1 (hc ▸ hk2)
        have hfalse : ¬(decide (sceneKey r0 = k) = true) := by simp [hne]
        simp only [List.filterMap_cons, hF0]
        rw [List.filter_cons, if_neg hfalse]
        exact ih F (List.Nodup.of_cons hnd)
          (fun k2 r2 h2 => hkey k2 r2 (List.mem_cons_of_mem _ h2)) k r hk2 hr

/-- Claim C9: applying the best-per-scene selection twice with the same
metric is idempotent — the second pass returns the identical record
list. -/
theorem claim_C9 (m : Metric) (rs : List ScoreRecord) :
    filter_best_records m (filter_best_records m rs) = filter_best_records m rs := by
  have hmap := filter_best_map_key m rs
  have hnd := sceneKeys_nodup rs
  have hsorted := sceneKeys_sorted rs
  have hkeys2 : sceneKeys (filter_best_records m rs) = sceneKeys rs := by
    show ((filter_best_records m rs).map sceneKey).dedup.insertionSort
      (fun a b => a ≤ b) = sceneKeys rs
    rw [hmap, List.dedup_eq_self.mpr hnd]
    exact List.Sorted.insertionSort_eq hsorted
  refine Eq.trans ?_ (filter_best_records_def m rs).symm
  rw [filter_best_records_def m (filter_best_records m rs), hkeys2]
  apply List.filterMap_congr
  intro k hk
  obtain ⟨r, hr⟩ := bestOfGroup_some m (groupOf rs k) (groupOf_ne_nil rs k hk)
  have hgrp : groupOf (filter_best_records m rs) k = [r] := by
    unfold groupOf
    rw [filter_best_records_def]
    exact filter_singleton_of_nodup (sceneKeys rs) _ hnd
      (fun k2 r2 hk2 hr2 => sceneKey_of_mem_group rs k2 r2
        (isFirstMax_mem m _ r2 (bestOfGroup_isFirstMax m _ r2 hr2)))
      k r hk hr
  rw [hgrp, hr]
  rfl

theorem gtEntities_toFinset (gt : List Triple) :
    (gtEntities gt).toFinset =
      (gt.map fun t => t.1).toFinset ∪ (gt.map fun t => t.2.2).toFinset := by
  unfold gtEntities
  rw [← List.toFinset_append]
  apply Finset.ext
  intro a
  simp [List.mem_dedup]

/-- Claim C5: for every ground-truth scene graph and oracle response,
`evaluate_image` computes `entity_iou` over the union of all subjects
and objects of the ground-truth triples versus the oracle's `entities`
field taken directly (the right-hand side depends only on that field,
not on the predicted triples), and computes `relation_iou` over the set
of predicate components of the ground-truth triples versus the set of
predicate components of the predicted triples. -/
theorem claim_C5 (resp : OracleResponse) (gt : List Triple) :
    (evaluate_image resp gt).entity_iou =
      finsetIoU ((gt.map fun t => t.1).toFinset ∪ (gt.map fun t => t.2.2).toFinset)
        (extract_scene_graph_from_image resp).entities.toFinset ∧
    (evaluate_image resp gt).relation_iou =
      finsetIoU (gt.map fun t => t.2.1).toFinset
        ((extract_scene_graph_from_image resp).scene_graph.map fun t => t.2.1).toFinset := by
  constructor
  · show compute_iou (gtEntities gt) (extract_scene_graph_from_image resp).entities = _
    rw [compute_iou_eq_finsetIoU, gtEntities_toFinset]
  · show compute_iou (gt.map fun t => t.2.1)
      ((extract_scene_graph_from_image resp).scene_graph.map fun t => t.2.1) = _
    rw [compute_iou_eq_finsetIoU]

theorem extract_empty_of_failed (resp : OracleResponse)
    (hfail : oracleFailed resp = true) :
    extract_scene_graph_from_image resp = ⟨[], []⟩ := by
  rcases resp with _ | _ | ⟨hsg, hent, sg, ents⟩
  · rfl
  · rfl
  · rcases hsg with _ | _ <;> rcases hent with _ | _
    · rfl
    · rfl
    · rfl
    · simp [oracleFailed] at hfail

theorem evaluate_records_append (oracle : List Char → OracleResponse)
    (meta : List MetaEntry) (a b : List (List Char)) :
    (evaluate_records oracle meta (a ++ b)).1 =
      (evaluate_records oracle meta a).1 ++ (evaluate_records oracle meta b).1 ∧
    (evaluate_records oracle meta (a ++ b)).2 =
      (evaluate_records oracle meta a).2 + (evaluate_records oracle meta b).2 := by
  induction a with
  | nil => simp [evaluate_records]
  | cons img rest ih =>
    obtain ⟨ih1, ih2⟩ := ih
    rcases hp : parse_scene_index img with _ | idx
    · constructor
      · simp [evaluate_records, hp, ih1]
      · simp [evaluate_records, hp, ih2]
        omega
    · rcases hg : meta[idx]? with _ | entry
      · constructor
        · simp [evaluate_records, hp, hg, ih1]
        · simp [evaluate_records, hp, hg, ih2]
          omega
      · constructor
        · simp [evaluate_records, hp, hg, ih1]
        · simp [evaluate_records, hp, hg, ih2]

/-- Claim C7: for every image whose oracle outcome is a failure (the
oracle raises, or returns invalid JSON, or a JSON object missing the
`scene_graph` or `entities` field), the evaluation treats the image as
an empty prediction, scores it against the matched ground truth via the
normal IoU rule (`compute_iou` against empty lists), and the batch
continues: the records before and after the failing image are produced
unchanged. -/
theorem claim_C7 (oracle : List Char → OracleResponse) (meta : List MetaEntry)
    (pre post : List (List Char)) (img : List Char) (idx : Nat)
    (entry : MetaEntry) (hfail : oracleFailed (oracle img) = true) :
    extract_scene_graph_from_image (oracle img) = ⟨[], []⟩ ∧
    (∀ g, (evaluate_image (oracle img) g).sg_iou =
        compute_iou g ([] : List Triple) ∧
      (evaluate_image (oracle img) g).entity_iou =
        compute_iou (gtEntities g) ([] : List (List Char)) ∧
      (evaluate_image (oracle img) g).relation_iou =
        compute_iou (g.map fun t => t.2.1) ([] : List (List Char)) ∧
      (evaluate_image (oracle img) g).predicted_sg = [] ∧
      (evaluate_image (oracle img) g).predicted_entities = []) ∧
    (parse_scene_index img = some idx → meta[idx]? = some entry →
      evaluate_records oracle meta (pre ++ img :: post) =
        ((evaluate_records oracle meta pre).1 ++
          make_score_record img idx entry
            (evaluate_image (oracle img) entry.scene_graph) ::
            (evaluate_records oracle meta post).1,
         (evaluate_records oracle meta pre).2 +
           (evaluate_records oracle meta post).2)) := by
  have hempty := extract_empty_of_failed (oracle img) hfail
  refine ⟨hempty, ?_, ?_⟩
  · intro g
    refine ⟨?_, ?_, ?_, ?_, ?_⟩ <;> simp [evaluate_image, hempty]
  · intro hp hg
    have happ := evaluate_records_append oracle meta pre (img :: post)
    have hcons : evaluate_records oracle meta (img :: post) =
        (make_score_record img idx entry
          (evaluate_image (oracle img) entry.scene_graph) ::
          (evaluate_records oracle meta post).1,
         (evaluate_records oracle meta post).2) := by
      simp [evaluate_records, hp, hg]
    apply Prod.ext
    · rw [happ.1, hcons]
    · rw [happ.2, hcons]

/-- Witness for C7: a constantly-raising oracle on a resolvable image. -/
theorem claim_C7_witness :
    oracleFailed ((fun _ => OracleResponse.err) "000.png".toList) = true ∧
      extract_scene_graph_from_image
        ((fun _ => OracleResponse.err) "000.png".toList) = ⟨[], []⟩ :=
  ⟨by decide,
   (claim_C7 (fun _ => OracleResponse.err) [sampleEntry] [] []
     "000.png".toList 0 sampleEntry (by decide)).1⟩

theorem average_metrics_nonempty (rs : List ScoreRecord) (h : rs ≠ []) :
    average_metrics rs =
      ⟨meanQ (rs.map (fun r => r.sg_iou)), meanQ (rs.map (fun r => r.entity_iou)),
       meanQ (rs.map (fun r => r.relation_iou)), rs.length⟩ := by
  have hpos : 0 < rs.length := List.length_pos.mpr h
  unfold average_metrics meanQ
  simp [hpos]

theorem filter_average_metrics_nonempty (rs : List ScoreRecord) (h : rs ≠ []) :
    filter_average_metrics rs = some
      ⟨meanQ (rs.map (fun r => r.sg_iou)), meanQ (rs.map (fun r => r.entity_iou)),
       meanQ (rs.map (fun r => r.relation_iou)), rs.length⟩ := by
  have hpos : rs.length ≠ 0 := by
    simpa using (List.length_pos.mpr h).ne'
  unfold filter_average_metrics meanQ
  rw [if_neg hpos]
  simp

theorem filter_best_ne_nil (m : Metric) (rs : List ScoreRecord) (h : rs ≠ []) :
    filter_best_records m rs ≠ [] := by
  intro hc
  have hmap := filter_best_map_key m rs
  rw [hc] at hmap
  rcases rs with _ | ⟨r, rs2⟩
  · exact h rfl
  · have hmem : sceneKey r ∈ sceneKeys (r :: rs2) :=
      (mem_sceneKeys _ _).mpr (List.mem_map.mpr ⟨r, List.mem_cons_self _ _, rfl⟩)
    rw [← hmap] at hmem
    simp at hmem

/-- Counterexample for C6: on an empty record list the recomputation of
the averages after best-per-scene filtering does not default to zero —
lines 70-76 of filter_best_images.py divide by `n_scenes = 0`, raising
`ZeroDivisionError` (embedded as `none`), rather than producing the
zero-valued `AvgMetrics` the claim requires. -/
theorem claim_C6_counterexample :
    filter_best_per_scene Metric.sg_iou [] = none := rfl

/-- Claim C6 as amended: `evaluate_method` reports the arithmetic mean
of each of the three IoU metrics over the produced records and defaults
to zero on an empty record list; the averages recomputed after
best-per-scene filtering equal the arithmetic mean over the selected
records whenever the input record list is non-empty, but on an empty
input the recomputation fails (divides by zero) instead of defaulting to
zero. -/
theorem claim_C6 (oracle : List Char → OracleResponse) (meta : List MetaEntry)
    (imgs : List (List Char)) (m : Metric) (rs : List ScoreRecord) :
    ((evaluate_records oracle meta imgs).1 = [] →
      (evaluate_method oracle meta imgs).1 = ⟨0, 0, 0, 0⟩) ∧
    ((evaluate_records oracle meta imgs).1 ≠ [] →
      (evaluate_method oracle meta imgs).1 =
        ⟨meanQ ((evaluate_records oracle meta imgs).1.map (fun r => r.sg_iou)),
         meanQ ((evaluate_records oracle meta imgs).1.map (fun r => r.entity_iou)),
         meanQ ((evaluate_records oracle meta imgs).1.map (fun r => r.relation_iou)),
         (evaluate_records oracle meta imgs).1.length⟩) ∧
    (rs ≠ [] →
      filter_best_per_scene m rs = some (filter_best_records m rs,
        ⟨meanQ ((filter_best_records m rs).map (fun r => r.sg_iou)),
         meanQ ((filter_best_records m rs).map (fun r => r.entity_iou)),
         meanQ ((filter_best_records m rs).map (fun r => r.relation_iou)),
         (filter_best_records m rs).length⟩)) := by
  refine ⟨?_, ?_, ?_⟩
  · intro h
    show average_metrics (evaluate_records oracle meta imgs).1 = _
    rw [h]
    rfl
  · intro h
    show average_metrics (evaluate_records oracle meta imgs).1 = _
    exact average_metrics_nonempty _ h
  · intro h
    have hne := filter_best_ne_nil m rs h
    show (match filter_average_metrics (filter_best_records m rs) with
          | some avg => some (filter_best_records m rs, avg)
          | none => none) = _
    rw [filter_average_metrics_nonempty _ hne]

/-- Witness for C6 on a one-record list. -/
theorem claim_C6_witness :
    ([sampleRecord] : List ScoreRecord) ≠ [] ∧
      filter_best_per_scene Metric.sg_iou [sampleRecord] =
        some (filter_best_records Metric.sg_iou [sampleRecord],
          ⟨meanQ ((filter_best_records Metric.sg_iou [sampleRecord]).map
              (fun r => r.sg_iou)),
           meanQ ((filter_best_records Metric.sg_iou [sampleRecord]).map
              (fun r => r.entity_iou)),
           meanQ ((filter_best_records Metric.sg_iou [sampleRecord]).map
              (fun r => r.relation_iou)),
           (filter_best_records Metric.sg_iou [sampleRecord]).length⟩) :=
  ⟨List.cons_ne_nil _ _,
   (claim_C6 (fun _ => OracleResponse.err) [] [] Metric.sg_iou
     [sampleRecord]).2.2 (List.cons_ne_nil _ _)⟩

/-- Witness for C2 on a one-record list. -/
theorem claim_C2_witness :
    ((filter_best_records Metric.sg_iou [sampleRecord]).map sceneKey).Nodup :=
  (claim_C2 Metric.sg_iou [sampleRecord]).1

/-- Witness for C5 at a raising oracle and empty ground truth. -/
theorem claim_C5_witness :
    (evaluate_image OracleResponse.err []).entity_iou =
      finsetIoU ((([] : List Triple).map fun t => t.1).toFinset ∪
          (([] : List Triple).map fun t => t.2.2).toFinset)
        (extract_scene_graph_from_image OracleResponse.err).entities.toFinset :=
  (claim_C5 OracleResponse.err []).1

/-- Witness for C9 on a one-record list. -/
theorem claim_C9_witness :
    filter_best_records Metric.sg_iou
        (filter_best_records Metric.sg_iou [sampleRecord]) =
      filter_best_records Metric.sg_iou [sampleRecord] :=
  claim_C9 Metric.sg_iou [sampleRecord]
